import Mathlib

set_option maxHeartbeats 1000000

/-!
Verification of the core of the Spleen file manager: the background
file-operation engine (`FileOpWorker` and `run_file_operation` in
src/spleen.py), the recursive search worker (`DeepSearchWorker`), the
directory-watch debounce bridge (`DirectoryWatcher` plus the `FileTab`
refresh timer), the operation helpers of src/spleen_ops.py, and zip
extraction.  Each source function is shallowly embedded as an executable
Lean definition; filesystem calls are modelled explicitly.
-/

/-- Signals emitted by `FileOpWorker` (src/spleen.py:78-83): one progress
signal per processed item and a single finished signal carrying the
collected error strings. -/
inductive Signal where
  | progress (completed : Nat) (total : Nat) (path : String)
  | finished (errors : List String)
deriving DecidableEq

/-- The error-list entry the worker records when the item at path `p` fails
(src/spleen.py:122-123): the string `path: message`, or nothing when the
item's filesystem call succeeds.  `att p` is the outcome of that call
(`Except.error` carries the caught OSError message). -/
def errEntry (att : String → Except String Unit) (p : String) : Option String :=
  match att p with
  | Except.ok _ => none
  | Except.error e => some (p ++ ": " ++ e)

/-- Loop of `FileOpWorker.run` (src/spleen.py:99-125).  The per-item
try-block (the copy/move/delete filesystem work) is abstracted as `att`,
returning `ok` or the caught OSError message; `c i` is the value of the
`self._cancel` flag observed at the top of iteration `i` (1-based
enumeration, as in the source).  Returns the emitted signals in order,
paired with the trace of the paths whose try-block actually ran. -/
def runAux (att : String → Except String Unit) (c : Nat → Bool) (total : Nat) :
    Nat → List String → List String → List Signal × List String
  | _, [], errs => ([Signal.finished errs], [])
  | i, p :: rest, errs =>
    if c i then ([Signal.finished errs], [])
    else
      let errs' :=
        match att p with
        | Except.ok _ => errs
        | Except.error e => errs ++ [p ++ ": " ++ e]
      (Signal.progress i total p :: (runAux att c total (i + 1) rest errs').1,
        p :: (runAux att c total (i + 1) rest errs').2)

/-- `FileOpWorker.run` (src/spleen.py:99-125): processes the paths in order
with `total = len(self.paths)`, enumeration starting at 1, and an initially
empty error list. -/
def FileOpWorker.run (att : String → Except String Unit) (c : Nat → Bool)
    (paths : List String) : List Signal × List String :=
  runAux att c paths.length 1 paths []

/-- Number of items the loop starting at iteration `i` processes before it
stops: it breaks at the first iteration whose cancellation check reads true,
or runs off the end of the list. -/
def stopLen (c : Nat → Bool) : Nat → List String → Nat
  | _, [] => 0
  | i, _ :: rest => if c i then 0 else stopLen c (i + 1) rest + 1

theorem stopLen_le (c : Nat → Bool) :
    ∀ (l : List String) (i : Nat), stopLen c i l ≤ l.length := by
  intro l
  induction l with
  | nil => intro i; simp [stopLen]
  | cons p rest ih =>
    intro i
    by_cases h : c i
    · simp [stopLen, h]
    · simp only [stopLen, if_neg h, List.length_cons]
      exact Nat.succ_le_succ (ih (i + 1))

theorem stopLen_eq_length (c : Nat → Bool) (hc : ∀ j, c j = false) :
    ∀ (l : List String) (i : Nat), stopLen c i l = l.length := by
  intro l
  induction l with
  | nil => intro i; simp [stopLen]
  | cons p rest ih =>
    intro i
    simp [stopLen, hc i, ih (i + 1)]

theorem stopLen_lt (c : Nat → Bool) :
    ∀ (l : List String) (i : Nat),
      (∃ j, i ≤ j ∧ j < i + l.length ∧ c j = true) → stopLen c i l < l.length := by
  intro l
  induction l with
  | nil =>
    intro i h
    rcases h with ⟨j, h1, h2, _⟩
    simp only [List.length_nil] at h2
    omega
  | cons p rest ih =>
    intro i h
    by_cases hi : c i
    · simp [stopLen, hi]
    · rcases h with ⟨j, h1, h2, h3⟩
      have hji : j ≠ i := by
        intro he
        rw [he] at h3
        exact hi h3
      have : stopLen c (i + 1) rest < rest.length := by
        refine ih (i + 1) ⟨j, by omega, ?_, h3⟩
        simp only [List.length_cons] at h2
        omega
      simp only [stopLen, if_neg hi, List.length_cons]
      omega

theorem stopLen_threshold (c : Nat → Bool) (k : Nat)
    (hc : ∀ j, c j = true ↔ k + 1 ≤ j) :
    ∀ (l : List String) (i : Nat), stopLen c i l = min (k + 1 - i) l.length := by
  intro l
  induction l with
  | nil => intro i; simp [stopLen]
  | cons p rest ih =>
    intro i
    by_cases hi : c i
    · have : k + 1 ≤ i := (hc i).mp hi
      have : k + 1 - i = 0 := by omega
      simp [stopLen, hi, this]
    · have hik : ¬ k + 1 ≤ i := fun hle => hi ((hc i).mpr hle)
      simp only [stopLen, if_neg hi, List.length_cons, ih (i + 1)]
      omega

/-- Closed form of the worker loop: it runs over the first
`stopLen c i paths` items, emitting one progress signal per item in order,
then emits a single finished signal whose payload appends, to the error list
accumulated so far, one `path: message` entry per failed attempted item. -/
theorem runAux_eq (att : String → Except String Unit) (c : Nat → Bool) (total : Nat) :
    ∀ (paths : List String) (i : Nat) (errs : List String),
      runAux att c total i paths errs =
        (List.zipWith (fun n p => Signal.progress n total p)
            (List.range' i (stopLen c i paths)) (paths.take (stopLen c i paths))
          ++ [Signal.finished
                (errs ++ (paths.take (stopLen c i paths)).filterMap (errEntry att))],
         paths.take (stopLen c i paths)) := by
  intro paths
  induction paths with
  | nil => intro i errs; simp [runAux, stopLen]
  | cons p rest ih =>
    intro i errs
    by_cases h : c i
    · simp [runAux, stopLen, h]
    · cases hatt : att p with
      | ok u =>
        simp [runAux, stopLen, h, hatt, ih (i + 1) errs, List.range'_succ,
          List.filterMap_cons, errEntry]
      | error e =>
        simp [runAux, stopLen, h, hatt, ih (i + 1) (errs ++ [p ++ ": " ++ e]),
          List.range'_succ, List.filterMap_cons, errEntry, List.append_assoc]

/-- The completedCount values carried by the progress signals, in emission
order. -/
def progressCounts (sigs : List Signal) : List Nat :=
  sigs.filterMap fun s =>
    match s with
    | Signal.progress n _ _ => some n
    | Signal.finished _ => none

theorem progressCounts_zipWith (total : Nat) :
    ∀ (R : List Nat) (T : List String), R.length = T.length →
      progressCounts (List.zipWith (fun n p => Signal.progress n total p) R T) = R := by
  intro R
  induction R with
  | nil => intro T _; simp [progressCounts]
  | cons n R ih =>
    intro T hT
    cases T with
    | nil => simp at hT
    | cons p T =>
      simp only [List.length_cons, Nat.succ.injEq] at hT
      simp [progressCounts, List.filterMap_cons] at ih ⊢
      exact ih T hT

theorem progressCounts_append (a b : List Signal) :
    progressCounts (a ++ b) = progressCounts a ++ progressCounts b := by
  simp [progressCounts, List.filterMap_append]

/-- Claim C5: for every batch the sequence of completedCount values delivered
via progress signals is exactly 1, 2, ..., k for some k that never exceeds
totalCount; when cancellation is never requested k equals totalCount (the
sequence starts at 1 and increases by exactly 1 up to totalCount), and when
the cancellation flag is observed during the run the sequence is a proper
prefix of 1..totalCount. -/
theorem spleen_c5 (att : String → Except String Unit) (c : Nat → Bool)
    (paths : List String) :
    ∃ k, k ≤ paths.length ∧
      progressCounts (FileOpWorker.run att c paths).1 = List.range' 1 k ∧
      ((∀ j, c j = false) → k = paths.length) ∧
      ((∃ j, 1 ≤ j ∧ j < 1 + paths.length ∧ c j = true) → k < paths.length) := by
  refine ⟨stopLen c 1 paths, stopLen_le c paths 1, ?_, ?_, ?_⟩
  · rw [FileOpWorker.run, runAux_eq, progressCounts_append]
    have hlen : (List.range' 1 (stopLen c 1 paths)).length
        = (paths.take (stopLen c 1 paths)).length := by
      rw [List.length_range', List.length_take]
      exact (Nat.min_eq_left (stopLen_le c paths 1)).symm
    rw [progressCounts_zipWith _ _ _ hlen]
    simp [progressCounts]
  · intro hc
    exact stopLen_eq_length c hc paths 1
  · intro hex
    exact stopLen_lt c paths 1 hex

/-- Witness for C5: a three-item batch whose cancellation flag is first
observed set at iteration 2 delivers exactly the progress sequence [1]. -/
theorem spleen_c5_witness :
    (∃ k, k ≤ (["a", "b", "c"] : List String).length ∧
      progressCounts (FileOpWorker.run (fun _ => Except.ok ())
          (fun j => decide (2 ≤ j)) ["a", "b", "c"]).1 = List.range' 1 k ∧
      ((∀ j, (fun j => decide (2 ≤ j)) j = false) → k = (["a", "b", "c"] : List String).length) ∧
      ((∃ j, 1 ≤ j ∧ j < 1 + (["a", "b", "c"] : List String).length ∧
          (fun j => decide (2 ≤ j)) j = true) → k < (["a", "b", "c"] : List String).length)) ∧
    progressCounts (FileOpWorker.run (fun _ => Except.ok ())
        (fun j => decide (2 ≤ j)) ["a", "b", "c"]).1 = [1] :=
  ⟨spleen_c5 (fun _ => Except.ok ()) (fun j => decide (2 ≤ j)) ["a", "b", "c"], by decide⟩

/-- Claim C6: with cancellation requested between item k and item k+1 of an
n-item batch (the flag is observed set from iteration k+1 on, k < n), exactly
the first k items are attempted — each exactly once, so completed items are
never revisited or rolled back — items k+1..n are never attempted, and the
final error list is drawn from the first k items only, hence holds at most k
entries and none for the unattempted items. -/
theorem spleen_c6 (att : String → Except String Unit) (k : Nat) (c : Nat → Bool)
    (paths : List String) (hc : ∀ j, c j = true ↔ k + 1 ≤ j)
    (hk : k < paths.length) :
    (FileOpWorker.run att c paths).2 = paths.take k ∧
    (FileOpWorker.run att c paths).1 =
      List.zipWith (fun n p => Signal.progress n paths.length p)
          (List.range' 1 k) (paths.take k)
        ++ [Signal.finished ((paths.take k).filterMap (errEntry att))] ∧
    ((paths.take k).filterMap (errEntry att)).length ≤ k := by
  have hs : stopLen c 1 paths = k := by
    rw [stopLen_threshold c k hc paths 1]
    omega
  refine ⟨?_, ?_, ?_⟩
  · rw [FileOpWorker.run, runAux_eq, hs]
  · rw [FileOpWorker.run, runAux_eq, hs]
    simp
  · calc ((paths.take k).filterMap (errEntry att)).length
        ≤ (paths.take k).length := List.length_filterMap_le _ _
      _ ≤ k := by rw [List.length_take]; omega

/-- Whether a signal is the finished signal. -/
def isFinished : Signal → Bool
  | Signal.finished _ => true
  | _ => false

theorem countP_isFinished_zipWith (total : Nat) :
    ∀ (R : List Nat) (T : List String),
      (List.zipWith (fun n p => Signal.progress n total p) R T).countP isFinished = 0 := by
  intro R
  induction R with
  | nil => intro T; simp
  | cons n R ih =>
    intro T
    cases T with
    | nil => simp
    | cons p T => simp [List.countP_cons, isFinished, ih T]

/-- Claim C7: every per-item failure is caught and recorded — the finished
payload holds exactly one `path: message` entry for each attempted item whose
filesystem call failed, in order — and processing continues past failures:
with no cancellation every item of the batch is attempted.  The finished
signal is emitted exactly once per batch, as the last signal, whether the
loop ran to the end or stopped early at a cancellation check. -/
theorem spleen_c7 (att : String → Except String Unit) (c : Nat → Bool)
    (paths : List String) :
    (FileOpWorker.run att c paths).1.countP isFinished = 1 ∧
    (FileOpWorker.run att c paths).1.getLast? =
      some (Signal.finished ((FileOpWorker.run att c paths).2.filterMap (errEntry att))) ∧
    ((∀ j, c j = false) → (FileOpWorker.run att c paths).2 = paths) := by
  refine ⟨?_, ?_, ?_⟩
  · rw [FileOpWorker.run, runAux_eq]
    simp [List.countP_append, countP_isFinished_zipWith, List.countP_cons, isFinished]
  · rw [FileOpWorker.run, runAux_eq]
    simp [List.getLast?_concat]
  · intro hc
    rw [FileOpWorker.run, runAux_eq]
    simp [stopLen_eq_length c hc paths 1]

/-- Witness for C7: a two-item batch whose first item fails and whose second
succeeds, no cancellation: one finished signal, last, carrying exactly the
failed item's entry, with both items attempted. -/
theorem spleen_c7_witness :
    ((FileOpWorker.run
        (fun p => if p = "a" then Except.error "denied" else Except.ok ())
        (fun _ => false) ["a", "b"]).2 = ["a", "b"]) ∧
    ((FileOpWorker.run
        (fun p => if p = "a" then Except.error "denied" else Except.ok ())
        (fun _ => false) ["a", "b"]).1.countP isFinished = 1) ∧
    ((FileOpWorker.run
        (fun p => if p = "a" then Except.error "denied" else Except.ok ())
        (fun _ => false) ["a", "b"]).1.getLast? =
      some (Signal.finished ["a: denied"])) := by
  have h := spleen_c7
    (fun p => if p = "a" then Except.error "denied" else Except.ok ())
    (fun _ => false) ["a", "b"]
  refine ⟨h.2.2 (fun _ => rfl), h.1, ?_⟩
  rw [h.2.1]
  decide

/-- Abstraction of the filesystem outcomes of the three operation branches of
`FileOpWorker.run` (src/spleen.py:106-121): what the shutil/os work for one
item yields — ok, or the OSError message the except clause catches. -/
structure FSOracle where
  copyOp : String → Option String → Except String Unit
  moveOp : String → Option String → Except String Unit
  deleteOp : String → Except String Unit

/-- The dispatch on `self.op` inside the worker's try-block
(src/spleen.py:106-121): an if/elif chain with no else branch, so an
unrecognized op runs no filesystem work at all and the try-block completes
without error. -/
def attemptItem (fs : FSOracle) (op : String) (dest : Option String)
    (p : String) : Except String Unit :=
  if op = "copy" then fs.copyOp p dest
  else if op = "move" then fs.moveOp p dest
  else if op = "delete" then fs.deleteOp p
  else Except.ok ()

/-- Claim C10: a batch submitted with an operation kind outside
copy/move/delete is not rejected and raises nothing: every item is a no-op
regardless of the filesystem's state (the oracle is never consulted), one
progress signal per item is still emitted with completedCount running 1 to
totalCount, and the final result carries an empty error list. -/
theorem spleen_c10 (op : String) (c : Nat → Bool)
    (h1 : op ≠ "copy") (h2 : op ≠ "move") (h3 : op ≠ "delete")
    (hc : ∀ j, c j = false) :
    (∀ (fs : FSOracle) (dest : Option String) (p : String),
        attemptItem fs op dest p = Except.ok ()) ∧
    ∀ (fs : FSOracle) (dest : Option String) (paths : List String),
      FileOpWorker.run (attemptItem fs op dest) c paths =
        (List.zipWith (fun n p => Signal.progress n paths.length p)
            (List.range' 1 paths.length) paths
          ++ [Signal.finished []], paths) := by
  have hok : ∀ (fs : FSOracle) (dest : Option String) (p : String),
      attemptItem fs op dest p = Except.ok () := by
    intro fs dest p
    simp [attemptItem, h1, h2, h3]
  refine ⟨hok, ?_⟩
  intro fs dest paths
  rw [FileOpWorker.run, runAux_eq]
  rw [stopLen_eq_length c hc paths 1, List.take_length]
  have : ∀ q ∈ paths, errEntry (attemptItem fs op dest) q = none := by
    intro q _
    simp [errEntry, hok fs dest q]
  rw [List.filterMap_eq_nil_iff.mpr this]
  simp

/-- Witness for C10: op "zip" over an oracle that fails on everything still
yields full progress 1..2 and an empty error list. -/
theorem spleen_c10_witness :
    FileOpWorker.run
        (attemptItem
          ⟨fun _ _ => Except.error "boom", fun _ _ => Except.error "boom",
            fun _ => Except.error "boom"⟩ "zip" none)
        (fun _ => false) ["a", "b"] =
      (List.zipWith (fun n p => Signal.progress n (["a", "b"] : List String).length p)
          (List.range' 1 (["a", "b"] : List String).length) ["a", "b"]
        ++ [Signal.finished []], ["a", "b"]) :=
  (spleen_c10 "zip" (fun _ => false) (by decide) (by decide) (by decide)
      (fun _ => rfl)).2
    ⟨fun _ _ => Except.error "boom", fun _ _ => Except.error "boom",
      fun _ => Except.error "boom"⟩ none ["a", "b"]

/-- The worker object `run_file_operation` constructs — the operation handle:
op, paths, destination and the initial cancellation flag
(src/spleen.py:88-94). -/
structure FileOpWorkerState where
  op : String
  paths : List String
  dest : Option String
  cancelRequested : Bool
deriving DecidableEq

/-- `run_file_operation` (src/spleen.py:160-179): builds the progress dialog,
creates the worker, wires the progress/finished/cancel signals and starts the
worker on the global thread pool.  The source has no validation branch of any
kind, so the submission cannot be declined: a worker (the handle) results
from every input.  `none` — the shape a synchronous rejection would take —
is never produced. -/
def run_file_operation (op : String) (paths : List String)
    (dest : Option String) : Option FileOpWorkerState :=
  some { op := op, paths := paths, dest := dest, cancelRequested := false }

/-- Counterexample to claim C3: submitting an empty path list — or a copy
request with no destination — still creates and starts a worker handle;
nothing is rejected synchronously at submission time. -/
theorem spleen_c3_counterexample :
    (run_file_operation "copy" [] none).isSome = true ∧
    (run_file_operation "copy" ["/home/u/a.txt"] none).isSome = true := by
  decide

/-- Claim C3 amended: submission performs no validation at all — a worker
handle is created and started for every request, including an empty path
list and a copy/move request without a destination — and an empty batch is
reported through the asynchronous channel as a single finished signal with
an empty error list, not synchronously. -/
theorem spleen_c3_amended (op : String) (paths : List String)
    (dest : Option String) :
    (run_file_operation op paths dest).isSome = true ∧
    ∀ (att : String → Except String Unit) (c : Nat → Bool),
      FileOpWorker.run att c [] = ([Signal.finished []], []) :=
  ⟨rfl, fun _ _ => rfl⟩

/-- Witness for C6: a three-item batch, every item failing, cancellation
requested after item 1 (flag observed from iteration 2): only "a" is
attempted and the error list has the single entry for it. -/
theorem spleen_c6_witness :
    ((∀ j, (fun j => decide (2 ≤ j)) j = true ↔ 1 + 1 ≤ j) ∧
      1 < (["a", "b", "c"] : List String).length) ∧
    (FileOpWorker.run (fun _ => Except.error "denied")
        (fun j => decide (2 ≤ j)) ["a", "b", "c"]).2 = (["a", "b", "c"] : List String).take 1 ∧
    ((["a", "b", "c"] : List String).take 1).filterMap
        (errEntry (fun _ => Except.error "denied")) = ["a: denied"] := by
  have h := spleen_c6 (fun _ => Except.error "denied") 1
    (fun j => decide (2 ≤ j)) ["a", "b", "c"]
    (fun j => by simp) (by decide)
  exact ⟨⟨fun j => by simp, by decide⟩, h.1, by decide⟩

/-- A zip archive entry: its filename, represented as the list of its
slash-separated components (`..` appears as the component ".."), and its
byte content. -/
structure ZEntry where
  parts : List String
  content : String
deriving DecidableEq

/-- A zip archive as `zipfile.ZipFile` classifies it: unreadable (raises
`BadZipFile`) or a readable list of entries. -/
inductive Zip where
  | corrupt
  | good (entries : List ZEntry)
deriving DecidableEq

/-- The entry-name sanitization CPython's `ZipFile._extract_member` applies
on POSIX before writing: the name is split at the separator and every
component equal to the empty string, "." or ".." is dropped — traversal
components are silently stripped, not reported. -/
def sanitizeParts (parts : List String) : List String :=
  parts.filter fun s => !(s == "" || s == "." || s == "..")

/-- The path `ZipFile._extract_member` writes an entry to:
`os.path.join(dest_dir, sanitized_name)`. -/
def extractTarget (dest : List String) (parts : List String) : List String :=
  dest ++ sanitizeParts parts

/-- `zf.extractall(dest_dir)` as called by `extract_zip`
(src/spleen_ops.py:34-35) and by `FileTab.extract_zip`
(src/spleen.py:482-483): raises `BadZipFile` for a corrupt archive, and
otherwise writes every entry's content at its sanitized target path. -/
def extractall (dest : List String) : Zip → Except String (List (List String × String))
  | Zip.corrupt => Except.error "BadZipFile"
  | Zip.good es => Except.ok (es.map fun e => (extractTarget dest e.parts, e.content))

/-- `spleen_ops.extract_zip` (src/spleen_ops.py:31-35): the destination
defaults to `os.path.dirname(zip_path)` when not given. -/
def extract_zip (zipPath : List String) (destDir : Option (List String))
    (z : Zip) : Except String (List (List String × String)) :=
  extractall (destDir.getD zipPath.dropLast) z

/-- Counterexample to claim C2: extracting an archive whose single entry is
named `../evil.txt` into `/out` is not rejected as a malformed-archive
error — extraction succeeds, writing `/out/evil.txt` (the `..` component is
silently stripped). -/
theorem spleen_c2_counterexample :
    extract_zip ["tmp", "arc.zip"] (some ["out"])
        (Zip.good [⟨["..", "evil.txt"], "x"⟩])
      = Except.ok [(["out", "evil.txt"], "x")] := rfl

/-- Claim C2 amended: a zip entry whose name includes `../` is not rejected
as a malformed-archive error; instead the empty, `.` and `..` components of
every entry name are silently stripped, so extraction of a readable archive
always succeeds and every written path is the destination directory followed
by components none of which is `..` — no file is ever written outside the
destination directory. -/
theorem spleen_c2_amended (dest : List String) (es : List ZEntry) :
    ∃ ws, extractall dest (Zip.good es) = Except.ok ws ∧
      ∀ w ∈ ws, ∃ tail, w.1 = dest ++ tail ∧
        ∀ s ∈ tail, s ≠ "" ∧ s ≠ "." ∧ s ≠ ".." := by
  refine ⟨_, rfl, ?_⟩
  intro w hw
  rcases List.mem_map.mp hw with ⟨e, _, rfl⟩
  refine ⟨sanitizeParts e.parts, rfl, ?_⟩
  intro s hs
  have hfs := List.of_mem_filter hs
  simp only [Bool.not_eq_true', Bool.or_eq_false_iff, beq_eq_false_iff_ne] at hfs
  exact ⟨hfs.1.1, hfs.1.2, hfs.2⟩

/-- Witness for C2 (amended): the traversal entry `../evil.txt` lands at
`out/evil.txt`, inside the destination. -/
theorem spleen_c2_witness :
    ∃ ws, extractall ["out"] (Zip.good [⟨["..", "evil.txt"], "x"⟩]) = Except.ok ws ∧
      ∀ w ∈ ws, ∃ tail, w.1 = ["out"] ++ tail ∧
        ∀ s ∈ tail, s ≠ "" ∧ s ≠ "." ∧ s ≠ ".." :=
  spleen_c2_amended ["out"] [⟨["..", "evil.txt"], "x"⟩]

/-- State of one `FileTab`'s change-notification machinery: whether the
watchdog observer is running (src/spleen.py:63-71) and whether the 300 ms
single-shot refresh timer is armed (src/spleen.py:316-320). -/
structure WatchState where
  observing : Bool
  timerActive : Bool
deriving DecidableEq

/-- Events driving the watch machinery: a filesystem event under the watched
root, the `cleanup` call (src/spleen.py:332-333, which only calls
`watcher.stop()`), and the expiry of the armed timer's 300 ms interval. -/
inductive WEvent where
  | fsEvent
  | stop
  | timerFire
deriving DecidableEq

/-- One step of the watch machinery, returning the new state and whether a
refresh notification fires.  A filesystem event reaches `on_any_event`
(src/spleen.py:74-75) only while the observer runs, and then (re)starts the
single-shot timer (src/spleen.py:320); `cleanup` stops the observer but does
not touch the timer (src/spleen.py:332-333); an armed timer's expiry fires
the refresh and disarms it (src/spleen.py:317-319). -/
def watchStep (s : WatchState) (e : WEvent) : WatchState × Bool :=
  match e with
  | WEvent.fsEvent =>
    if s.observing then ({ s with timerActive := true }, false) else (s, false)
  | WEvent.stop => ({ s with observing := false }, false)
  | WEvent.timerFire =>
    if s.timerActive then ({ s with timerActive := false }, true) else (s, false)

/-- Total number of refresh notifications fired over an event sequence. -/
def watchFires : WatchState → List WEvent → Nat
  | _, [] => 0
  | s, e :: es =>
    (if (watchStep s e).2 then 1 else 0) + watchFires (watchStep s e).1 es

/-- State after an event sequence. -/
def watchRunState : WatchState → List WEvent → WatchState
  | s, [] => s
  | s, e :: es => watchRunState (watchStep s e).1 es

/-- Counterexample to claim C9: from the freshly started tab state, a
filesystem event arms the debounce timer; `stop()` (cleanup) is then called
while the 300 ms period is in flight; the timer is not cancelled, and when
it expires a refresh notification still fires after stop(). -/
theorem spleen_c9_counterexample :
    (watchRunState { observing := true, timerActive := false }
        [WEvent.fsEvent, WEvent.stop]).observing = false ∧
    (watchStep (watchRunState { observing := true, timerActive := false }
        [WEvent.fsEvent, WEvent.stop]) WEvent.timerFire).2 = true ∧
    watchFires { observing := true, timerActive := false }
        [WEvent.fsEvent, WEvent.stop, WEvent.timerFire] = 1 := by
  decide

/-- Claim C9 amended: `stop()` tears down the filesystem watch, so after it
no filesystem event arms the timer or produces a notification; but it does
not cancel a debounce timer already armed at the moment of `stop()` — that
timer still fires its one pending refresh.  From any stopped state at most
one notification ever fires: exactly the pending one when the timer was
armed at stop, none otherwise. -/
theorem spleen_c9_amended (s : WatchState) (evs : List WEvent)
    (h : s.observing = false) :
    watchFires s evs ≤ (if s.timerActive then 1 else 0) := by
  induction evs generalizing s with
  | nil => simp [watchFires]
  | cons e es ih =>
    cases s with
    | mk obs tim =>
      simp only at h
      subst h
      cases e with
      | fsEvent =>
        simpa [watchFires, watchStep] using ih ⟨false, tim⟩ rfl
      | stop =>
        simpa [watchFires, watchStep] using ih ⟨false, tim⟩ rfl
      | timerFire =>
        cases tim with
        | false => simpa [watchFires, watchStep] using ih ⟨false, false⟩ rfl
        | true =>
          have := ih ⟨false, false⟩ rfl
          simp only [watchFires, watchStep] at this ⊢
          simp at this ⊢
          omega

/-- Witness for C9 (amended): from a stopped state with the timer armed, the
pending fire is delivered and nothing further ever fires. -/
theorem spleen_c9_witness :
    (({ observing := false, timerActive := true } : WatchState).observing = false) ∧
    watchFires { observing := false, timerActive := true }
        [WEvent.timerFire, WEvent.fsEvent, WEvent.timerFire]
      ≤ (if ({ observing := false, timerActive := true } : WatchState).timerActive
          then 1 else 0) :=
  ⟨rfl, spleen_c9_amended { observing := false, timerActive := true }
    [WEvent.timerFire, WEvent.fsEvent, WEvent.timerFire] rfl⟩

/-- Fuel-indexed matcher equivalent to `fnmatch.fnmatch`'s compiled pattern
on POSIX for patterns built from literal characters and the wildcards `*`
(any run of characters) and `?` (any single character); `os.path.normcase`
is the identity on POSIX, so matching is case-sensitive.  The fuel only
needs to exceed pattern length + name length. -/
def globMatchF : Nat → List Char → List Char → Bool
  | 0, _, _ => false
  | _ + 1, [], s => s.isEmpty
  | f + 1, q :: ps, s =>
    if q = '*' then
      match s with
      | [] => globMatchF f ps []
      | _ :: ns => globMatchF f ps s || globMatchF f (q :: ps) ns
    else
      match s with
      | [] => false
      | ch :: ns => (q == '?' || q == ch) && globMatchF f ps ns

/-- The matcher with sufficient fuel. -/
def globMatch (pat s : List Char) : Bool :=
  globMatchF (pat.length + s.length + 1) pat s

/-- `fnmatch.fnmatch(name, pattern)` (src/spleen.py:149) on POSIX, for
patterns without `[` character classes. -/
def fnmatch (name pat : String) : Bool :=
  globMatch pat.toList name.toList

theorem globMatchF_congr :
    ∀ (f g : Nat) (pat s : List Char), pat.length + s.length < f →
      pat.length + s.length < g → globMatchF f pat s = globMatchF g pat s := by
  intro f
  induction f with
  | zero => intro g pat s hf _; omega
  | succ f ih =>
    intro g pat s hf hg
    cases g with
    | zero => omega
    | succ g =>
      cases pat with
      | nil => simp [globMatchF]
      | cons q ps =>
        by_cases hq : q = '*'
        · subst hq
          cases s with
          | nil =>
            simp only [globMatchF, if_pos rfl]
            apply ih
            · simp only [List.length_cons, List.length_nil] at hf ⊢
              omega
            · simp only [List.length_cons, List.length_nil] at hg ⊢
              omega
          | cons ch ns =>
            simp only [globMatchF, if_pos rfl]
            have h1 : globMatchF f ps (ch :: ns) = globMatchF g ps (ch :: ns) := by
              apply ih <;> simp only [List.length_cons] at hf hg ⊢ <;> omega
            have h2 : globMatchF f ('*' :: ps) ns = globMatchF g ('*' :: ps) ns := by
              apply ih <;> simp only [List.length_cons] at hf hg ⊢ <;> omega
            simp [h1, h2]
        · cases s with
          | nil => simp [globMatchF, hq]
          | cons ch ns =>
            simp only [globMatchF, if_neg hq]
            have h1 : globMatchF f ps ns = globMatchF g ps ns := by
              apply ih <;> simp only [List.length_cons] at hf hg ⊢ <;> omega
            rw [h1]

theorem globMatch_nil (s : List Char) : globMatch [] s = s.isEmpty := by
  cases s <;> rfl

theorem globMatch_star_nil (ps : List Char) :
    globMatch ('*' :: ps) [] = globMatch ps [] := by
  show globMatchF _ _ _ = globMatchF _ _ _
  rw [show globMatchF (('*' :: ps).length + ([] : List Char).length + 1) ('*' :: ps) []
      = globMatchF (('*' :: ps).length + ([] : List Char).length) ps [] from by
    simp [globMatchF]]
  apply globMatchF_congr <;> simp

theorem globMatch_star_cons (ps : List Char) (ch : Char) (ns : List Char) :
    globMatch ('*' :: ps) (ch :: ns) =
      (globMatch ps (ch :: ns) || globMatch ('*' :: ps) ns) := by
  show globMatchF _ _ _ = _
  have hu : globMatchF (('*' :: ps).length + (ch :: ns).length + 1) ('*' :: ps) (ch :: ns)
      = (globMatchF (('*' :: ps).length + (ch :: ns).length) ps (ch :: ns)
        || globMatchF (('*' :: ps).length + (ch :: ns).length) ('*' :: ps) ns) := by
    simp [globMatchF]
  rw [hu]
  have h1 : globMatchF (('*' :: ps).length + (ch :: ns).length) ps (ch :: ns)
      = globMatch ps (ch :: ns) := by
    apply globMatchF_congr <;> simp [globMatch]
  have h2 : globMatchF (('*' :: ps).length + (ch :: ns).length) ('*' :: ps) ns
      = globMatch ('*' :: ps) ns := by
    apply globMatchF_congr <;> simp [globMatch]
  rw [h1, h2]

theorem globMatch_cons_nil (q : Char) (hq : q ≠ '*') (ps : List Char) :
    globMatch (q :: ps) [] = false := by
  simp [globMatch, globMatchF, hq]

theorem globMatch_lit (q : Char) (hq : q ≠ '*') (ps : List Char) (ch : Char)
    (ns : List Char) :
    globMatch (q :: ps) (ch :: ns) = ((q == '?' || q == ch) && globMatch ps ns) := by
  show globMatchF _ _ _ = _
  have hu : globMatchF ((q :: ps).length + (ch :: ns).length + 1) (q :: ps) (ch :: ns)
      = ((q == '?' || q == ch)
        && globMatchF ((q :: ps).length + (ch :: ns).length) ps ns) := by
    simp [globMatchF, hq]
  rw [hu]
  have h1 : globMatchF ((q :: ps).length + (ch :: ns).length) ps ns
      = globMatch ps ns := by
    apply globMatchF_congr
    · simp only [List.length_cons]
      omega
    · omega
  rw [h1]

/-- Denotation of the spec's case-sensitive glob rules over base names:
`*` matches any run of characters, `?` matches any single character, and any
other pattern character matches exactly itself. -/
def GlobSpec : List Char → List Char → Prop
  | [], s => s = []
  | q :: ps, s =>
    if q = '*' then ∃ u v, s = u ++ v ∧ GlobSpec ps v
    else if q = '?' then ∃ ch v, s = ch :: v ∧ GlobSpec ps v
    else ∃ v, s = q :: v ∧ GlobSpec ps v

theorem globMatch_iff_aux :
    ∀ (m : Nat) (pat s : List Char), pat.length + s.length ≤ m →
      (globMatch pat s = true ↔ GlobSpec pat s) := by
  intro m
  induction m using Nat.strong_induction_on with
  | _ m ih =>
    intro pat s hm
    cases pat with
    | nil =>
      rw [globMatch_nil]
      cases s <;> simp [GlobSpec]
    | cons q ps =>
      by_cases hq : q = '*'
      · subst hq
        simp only [GlobSpec, if_pos rfl]
        cases s with
        | nil =>
          rw [globMatch_star_nil]
          constructor
          · intro h
            refine ⟨[], [], rfl, ?_⟩
            have := ih (ps.length + 0)
              (by simp only [List.length_cons] at hm; omega) ps [] (by simp)
            exact this.mp h
          · rintro ⟨u, v, huv, hv⟩
            have hu : u = [] := by
              cases u with
              | nil => rfl
              | cons a b => simp at huv
            subst hu
            simp only [List.nil_append] at huv
            subst huv
            have := ih (ps.length + 0)
              (by simp only [List.length_cons] at hm; omega) ps [] (by simp)
            exact this.mpr hv
        | cons ch ns =>
          rw [globMatch_star_cons]
          constructor
          · intro h
            rcases Bool.or_eq_true_iff.mp h with h1 | h2
            · refine ⟨[], ch :: ns, rfl, ?_⟩
              have := ih (ps.length + (ch :: ns).length)
                (by simp only [List.length_cons] at hm ⊢; omega) ps (ch :: ns) le_rfl
              exact this.mp h1
            · have := ih (('*' :: ps).length + ns.length)
                (by simp only [List.length_cons] at hm ⊢; omega) ('*' :: ps) ns le_rfl
              have hns := this.mp h2
              simp only [GlobSpec, if_pos rfl] at hns
              rcases hns with ⟨u, v, huv, hv⟩
              exact ⟨ch :: u, v, by rw [huv, List.cons_append], hv⟩
          · rintro ⟨u, v, huv, hv⟩
            cases u with
            | nil =>
              simp only [List.nil_append] at huv
              subst huv
              have := ih (ps.length + (ch :: ns).length)
                (by simp only [List.length_cons] at hm ⊢; omega) ps (ch :: ns) le_rfl
              exact Bool.or_eq_true_iff.mpr (Or.inl (this.mpr hv))
            | cons a u' =>
              simp only [List.cons_append, List.cons.injEq] at huv
              rcases huv with ⟨ha, hns⟩
              subst ha
              have hspec : GlobSpec ('*' :: ps) ns := by
                simp only [GlobSpec, if_pos rfl]
                exact ⟨u', v, hns, hv⟩
              have := ih (('*' :: ps).length + ns.length)
                (by simp only [List.length_cons] at hm ⊢; omega) ('*' :: ps) ns le_rfl
              exact Bool.or_eq_true_iff.mpr (Or.inr (this.mpr hspec))
      · cases s with
        | nil =>
          rw [globMatch_cons_nil q hq]
          simp only [GlobSpec, if_neg hq]
          by_cases hq2 : q = '?' <;> simp [hq2]
        | cons ch ns =>
          rw [globMatch_lit q hq]
          have hrec := ih (ps.length + ns.length)
            (by simp only [List.length_cons] at hm ⊢; omega) ps ns le_rfl
          simp only [GlobSpec, if_neg hq]
          by_cases hq2 : q = '?'
          · subst hq2
            simp only [if_pos rfl]
            constructor
            · intro h
              simp only [beq_self_eq_true, Bool.true_or, Bool.true_and] at h
              exact ⟨ch, ns, rfl, hrec.mp h⟩
            · rintro ⟨ch', v, hv, hspec⟩
              simp only [List.cons.injEq] at hv
              rcases hv with ⟨_, hv⟩
              subst hv
              simp only [beq_self_eq_true, Bool.true_or, Bool.true_and]
              exact hrec.mpr hspec
          · simp only [if_neg hq2]
            constructor
            · intro h
              rcases Bool.and_eq_true_iff.mp h with ⟨h1, h2⟩
              rcases Bool.or_eq_true_iff.mp h1 with hb | hb
              · exact absurd (by simpa using hb) hq2
              · have : q = ch := by simpa using hb
                subst this
                exact ⟨ns, rfl, hrec.mp h2⟩
            · rintro ⟨v, hv, hspec⟩
              simp only [List.cons.injEq] at hv
              rcases hv with ⟨hch, hv⟩
              subst hch
              subst hv
              simp only [beq_self_eq_true, Bool.or_true, Bool.true_and]
              exact hrec.mpr hspec

theorem globMatch_iff (pat s : List Char) :
    globMatch pat s = true ↔ GlobSpec pat s :=
  globMatch_iff_aux (pat.length + s.length) pat s le_rfl

/-- A directory's contents as `os.scandir` exposes them to
`DeepSearchWorker.run` (src/spleen.py:144-157), as a flattened sibling list:
a regular file, a symbolic link (for which `entry.is_dir(follow_symlinks=
False)` is false, whatever it points to), or a real directory with its own
contents and a flag saying whether `os.scandir` on it succeeds (an OSError
on listing makes the recursive `scan` call contribute nothing). -/
inductive FSTree where
  | nil : FSTree
  | file (name : String) (rest : FSTree) : FSTree
  | link (name : String) (rest : FSTree) : FSTree
  | dir (name : String) (readable : Bool) (children : FSTree) (rest : FSTree) : FSTree
deriving DecidableEq

/-- `DeepSearchWorker.run`'s `scan` (src/spleen.py:145-156) over the
contents of the directory at `dirPath`: for each entry in order, emit
`entry.path` when `fnmatch(entry.name, pattern)` holds, then recurse exactly
when the entry is a real (non-symlink) directory; a directory that cannot be
listed contributes nothing from its children.  Returns the emitted match
paths in order. -/
def scan (pat dirPath : String) : FSTree → List String
  | FSTree.nil => []
  | FSTree.file n rest =>
    (if fnmatch n pat then [dirPath ++ "/" ++ n] else []) ++ scan pat dirPath rest
  | FSTree.link n rest =>
    (if fnmatch n pat then [dirPath ++ "/" ++ n] else []) ++ scan pat dirPath rest
  | FSTree.dir n r cs rest =>
    (if fnmatch n pat then [dirPath ++ "/" ++ n] else []) ++
      ((if r then scan pat (dirPath ++ "/" ++ n) cs else []) ++ scan pat dirPath rest)

/-- The entries the traversal encounters, from the spec's words: every entry
of the root directory, and, below each readable real (non-symlink)
subdirectory, its entries in turn — symlinked directories are not descended
into.  Each entry is listed as (full path, base name). -/
def reach (dirPath : String) : FSTree → List (String × String)
  | FSTree.nil => []
  | FSTree.file n rest => (dirPath ++ "/" ++ n, n) :: reach dirPath rest
  | FSTree.link n rest => (dirPath ++ "/" ++ n, n) :: reach dirPath rest
  | FSTree.dir n r cs rest =>
    (dirPath ++ "/" ++ n, n) ::
      ((if r then reach (dirPath ++ "/" ++ n) cs else []) ++ reach dirPath rest)

theorem scan_eq_reach (pat : String) :
    ∀ (t : FSTree) (dirPath : String),
      scan pat dirPath t =
        ((reach dirPath t).filter (fun e => fnmatch e.2 pat)).map Prod.fst := by
  intro t
  induction t with
  | nil => intro dirPath; simp [scan, reach]
  | file n rest ih =>
    intro dirPath
    by_cases h : fnmatch n pat <;>
      simp [scan, reach, h, ih dirPath, List.filter_cons]
  | link n rest ih =>
    intro dirPath
    by_cases h : fnmatch n pat <;>
      simp [scan, reach, h, ih dirPath, List.filter_cons]
  | dir n r cs rest ihc ihr =>
    intro dirPath
    by_cases h : fnmatch n pat <;> cases r <;>
      simp [scan, reach, h, ihc (dirPath ++ "/" ++ n), ihr dirPath,
        List.filter_cons, List.filter_append]

/-- Claim C8: an entry encountered by the traversal is emitted exactly when
its base name matches the pattern — the emission list equals the match
filter of the encountered entries, so whether an entry is emitted is
independent of whether it is recursed into, and the traversal descends
exactly into readable non-symlink subdirectories (what `reach` enumerates);
moreover the matcher realises the case-sensitive glob rules: `*` matches any
run of characters, `?` any single character, any other character itself.
Stated for patterns without `[`, fnmatch's character-class syntax, which the
embedding does not model (the program builds patterns of the form
`*text*`). -/
theorem spleen_c8 (pat : String) (_hpat : '[' ∉ pat.toList) (dirPath : String)
    (t : FSTree) :
    scan pat dirPath t =
      ((reach dirPath t).filter (fun e => fnmatch e.2 pat)).map Prod.fst ∧
    ∀ name : String, fnmatch name pat = true ↔ GlobSpec pat.toList name.toList :=
  ⟨scan_eq_reach pat t dirPath,
    fun name => globMatch_iff pat.toList name.toList⟩

/-- Witness for C8: the spec's concrete scenario — a root containing
`a.log`, `sub/b.log` and `sub/c.txt`, searched with pattern `*.log`, emits
exactly `/r/a.log` and `/r/sub/b.log`, in traversal order. -/
theorem spleen_c8_witness :
    ('[' ∉ ("*.log" : String).toList) ∧
    scan "*.log" "/r"
        (FSTree.file "a.log"
          (FSTree.dir "sub" true
            (FSTree.file "b.log" (FSTree.file "c.txt" FSTree.nil))
            FSTree.nil)) =
      ((reach "/r"
          (FSTree.file "a.log"
            (FSTree.dir "sub" true
              (FSTree.file "b.log" (FSTree.file "c.txt" FSTree.nil))
              FSTree.nil))).filter (fun e => fnmatch e.2 "*.log")).map Prod.fst ∧
    scan "*.log" "/r"
        (FSTree.file "a.log"
          (FSTree.dir "sub" true
            (FSTree.file "b.log" (FSTree.file "c.txt" FSTree.nil))
            FSTree.nil)) = ["/r/a.log", "/r/sub/b.log"] :=
  ⟨by decide,
    (spleen_c8 "*.log" (by decide) "/r"
        (FSTree.file "a.log"
          (FSTree.dir "sub" true
            (FSTree.file "b.log" (FSTree.file "c.txt" FSTree.nil))
            FSTree.nil))).1,
    by decide⟩

/-- A directory subtree of the filesystem the operations run against, as a
flattened list of named entries: a regular file with content, a symbolic
link with its target (stored as an absolute path, a component list), or a
subdirectory with its own entries. -/
inductive TFS where
  | nil : TFS
  | fil (name : String) (content : String) (rest : TFS) : TFS
  | lnk (name : String) (target : List String) (rest : TFS) : TFS
  | dir (name : String) (children : TFS) (rest : TFS) : TFS
deriving DecidableEq

/-- A single filesystem node, as looked up by name. -/
inductive TN where
  | fil (content : String) : TN
  | lnk (target : List String) : TN
  | dir (children : TFS) : TN
deriving DecidableEq

/-- Find the entry with the given name in a directory's entry list. -/
def TFS.find : TFS → String → Option TN
  | TFS.nil, _ => none
  | TFS.fil n c r, s => if n = s then some (TN.fil c) else r.find s
  | TFS.lnk n t r, s => if n = s then some (TN.lnk t) else r.find s
  | TFS.dir n cs r, s => if n = s then some (TN.dir cs) else r.find s

/-- Look up the node at an absolute path (component list) without resolving
a symbolic link in the final component; intermediate components must be real
directories. -/
def lookupIn : TFS → List String → Option TN
  | fs, [s] => fs.find s
  | fs, s :: rest =>
    match fs.find s with
    | some (TN.dir cs) => lookupIn cs rest
    | _ => none
  | _, [] => none

/-- Follow a chain of symbolic links from an absolute target path to the
node it finally denotes, with fuel bounding chain length (as the OS bounds
it with ELOOP). -/
def resolveTarget (root : TFS) : Nat → List String → Option TN
  | 0, _ => none
  | f + 1, t =>
    match lookupIn root t with
    | some (TN.lnk t2) => resolveTarget root f t2
    | some tn => some tn
    | none => none

/-- The node an absolute path denotes after following a final symbolic
link, in the manner of `os.path` predicates and `shutil`'s
follow-symlinks-by-default calls. -/
def resolvePathTN (root : TFS) (p : List String) : Option TN :=
  match lookupIn root p with
  | some (TN.lnk t) => resolveTarget root 40 t
  | other => other

/-- `os.path.islink`: the path's own node is a symbolic link. -/
def os_path_islink (root : TFS) (p : List String) : Bool :=
  match lookupIn root p with
  | some (TN.lnk _) => true
  | _ => false

/-- `os.path.isdir`: the path resolves (following links) to a directory. -/
def os_path_isdir (root : TFS) (p : List String) : Bool :=
  match resolvePathTN root p with
  | some (TN.dir _) => true
  | _ => false

/-- `os.readlink`: the target string stored in the link. -/
def os_readlink (root : TFS) (p : List String) : Option (List String) :=
  match lookupIn root p with
  | some (TN.lnk t) => some t
  | _ => none

/-- Build the entry-list cell holding node `n` under name `s`. -/
def TFS.consEntry (s : String) (n : TN) (rest : TFS) : TFS :=
  match n with
  | TN.fil c => TFS.fil s c rest
  | TN.lnk t => TFS.lnk s t rest
  | TN.dir cs => TFS.dir s cs rest

/-- Write node `n` under name `s`, replacing an existing entry of that name
or appending a new one. -/
def TFS.insertEntry : TFS → String → TN → TFS
  | TFS.nil, s, n => TFS.consEntry s n TFS.nil
  | TFS.fil a c r, s, n =>
    if a = s then TFS.consEntry s n r else TFS.fil a c (r.insertEntry s n)
  | TFS.lnk a t r, s, n =>
    if a = s then TFS.consEntry s n r else TFS.lnk a t (r.insertEntry s n)
  | TFS.dir a cs r, s, n =>
    if a = s then TFS.consEntry s n r else TFS.dir a cs (r.insertEntry s n)

/-- Write node `n` at an absolute path whose parent directories exist. -/
def setAt : TFS → List String → TN → Option TFS
  | fs, [s], n => some (fs.insertEntry s n)
  | fs, s :: rest, n =>
    match fs.find s with
    | some (TN.dir cs) => (setAt cs rest n).map fun cs2 => fs.insertEntry s (TN.dir cs2)
    | _ => none
  | _, [], _ => none

/-- Remove the entry with the given name from a directory's entry list. -/
def TFS.removeEntry : TFS → String → TFS
  | TFS.nil, _ => TFS.nil
  | TFS.fil a c r, s => if a = s then r else TFS.fil a c (r.removeEntry s)
  | TFS.lnk a t r, s => if a = s then r else TFS.lnk a t (r.removeEntry s)
  | TFS.dir a cs r, s => if a = s then r else TFS.dir a cs (r.removeEntry s)

/-- Remove the node at an absolute path. -/
def removeAt : TFS → List String → Option TFS
  | fs, [s] => if (fs.find s).isSome then some (fs.removeEntry s) else none
  | fs, s :: rest =>
    match fs.find s with
    | some (TN.dir cs) => (removeAt cs rest).map fun cs2 => fs.insertEntry s (TN.dir cs2)
    | _ => none
  | _, [] => none

/-- The payload `shutil.copytree(src, dst)` builds with its default
`symlinks=False`: every symbolic link below is dereferenced — a link to a
file becomes a copy of the file, a link to a directory a recursive
dereferencing copy of that directory; a broken link makes the copy fail.
Fuel bounds the total nesting and link chasing. -/
def derefFS (root : TFS) : Nat → TFS → Option TFS
  | 0, _ => none
  | _ + 1, TFS.nil => some TFS.nil
  | f + 1, TFS.fil n c r => (derefFS root f r).map (TFS.fil n c)
  | f + 1, TFS.dir n cs r => do
    let cs2 ← derefFS root f cs
    let r2 ← derefFS root f r
    pure (TFS.dir n cs2 r2)
  | f + 1, TFS.lnk n t r => do
    let tn ← resolveTarget root f t
    let r2 ← derefFS root f r
    match tn with
    | TN.fil c => pure (TFS.fil n c r2)
    | TN.dir cs => (derefFS root f cs).map fun cs2 => TFS.dir n cs2 r2
    | TN.lnk _ => none

/-- `shutil.copy2(src, dst)` with its default `follow_symlinks=True`: the
resolved source file's content is written at `dst` (overwriting an existing
file); a missing or unresolvable source, or a directory source, is an
OSError. -/
def shutil_copy2 (root : TFS) (src dst : List String) : Except String TFS :=
  match resolvePathTN root src with
  | some (TN.fil c) =>
    match setAt root dst (TN.fil c) with
    | some r => Except.ok r
    | none => Except.error "No such file or directory"
  | some (TN.dir _) => Except.error "Is a directory"
  | _ => Except.error "No such file or directory"

/-- `shutil.copytree(src, dst)` with its default `symlinks=False`: fails if
`dst` exists, reads the (resolved) source directory and writes a real
directory at `dst` holding the dereferencing copy of its entries. -/
def shutil_copytree (root : TFS) (src dst : List String) : Except String TFS :=
  if (lookupIn root dst).isSome then Except.error "File exists"
  else
    match resolvePathTN root src with
    | some (TN.dir cs) =>
      match derefFS root 40 cs with
      | some cs2 =>
        match setAt root dst (TN.dir cs2) with
        | some r => Except.ok r
        | none => Except.error "No such file or directory"
      | none => Except.error "copy failed"
    | _ => Except.error "Not a directory"

/-- `shutil.copytree(src, dst, symlinks=True)` for a real source directory:
fails if `dst` exists, and otherwise writes at `dst` a verbatim copy of the
subtree, symbolic links preserved as links. -/
def copytree_symlinks (root : TFS) (src dst : List String) : Except String TFS :=
  if (lookupIn root dst).isSome then Except.error "File exists"
  else
    match lookupIn root src with
    | some (TN.dir cs) =>
      match setAt root dst (TN.dir cs) with
      | some r => Except.ok r
      | none => Except.error "No such file or directory"
    | _ => Except.error "Not a directory"

/-- `os.symlink(target, dst)`: creates a new symbolic link; fails if `dst`
already exists. -/
def os_symlink (root : TFS) (target dst : List String) : Except String TFS :=
  if (lookupIn root dst).isSome then Except.error "File exists"
  else
    match setAt root dst (TN.lnk target) with
    | some r => Except.ok r
    | none => Except.error "No such file or directory"

/-- `shutil.rmtree(path)`: refuses to operate on a symbolic link (raises
"Cannot call rmtree on a symbolic link" before deleting anything), and
otherwise removes the directory subtree. -/
def shutil_rmtree (root : TFS) (p : List String) : Except String TFS :=
  if os_path_islink root p then Except.error "Cannot call rmtree on a symbolic link"
  else
    match lookupIn root p with
    | some (TN.dir _) =>
      match removeAt root p with
      | some r => Except.ok r
      | none => Except.error "No such file or directory"
    | _ => Except.error "Not a directory"

/-- `os.remove(path)`: removes a file or a symbolic link (the link itself,
never what it points to); fails on a directory. -/
def os_remove (root : TFS) (p : List String) : Except String TFS :=
  match lookupIn root p with
  | some (TN.dir _) => Except.error "Is a directory"
  | some _ =>
    match removeAt root p with
    | some r => Except.ok r
    | none => Except.error "No such file or directory"
  | none => Except.error "No such file or directory"

/-- The copy branch of `FileOpWorker.run` (src/spleen.py:106-112): target is
`os.path.join(self.dest, os.path.basename(path))`; `shutil.copytree` when
`os.path.isdir(path)` (which follows symbolic links), else `shutil.copy2`.
There is no symbolic-link case. -/
def workerCopyStep (root : TFS) (path dest : List String) : Except String TFS :=
  let target := dest ++ [path.getLastD ""]
  if os_path_isdir root path then shutil_copytree root path target
  else shutil_copy2 root path target

/-- `spleen_ops.copy_path` (src/spleen_ops.py:6-15): a symbolic-link source
is recreated with `os.symlink(os.readlink(src), dest)`; a directory source
is copied with `shutil.copytree(..., symlinks=True)`; otherwise
`shutil.copy2`. -/
def copy_path (root : TFS) (src dest_dir : List String) : Except String TFS :=
  let dest := dest_dir ++ [src.getLastD ""]
  if os_path_islink root src then
    match os_readlink root src with
    | some t => os_symlink root t dest
    | none => Except.error "No such file or directory"
  else if os_path_isdir root src then copytree_symlinks root src dest
  else shutil_copy2 root src dest

/-- The delete branch of `FileOpWorker.run` (src/spleen.py:117-121):
`shutil.rmtree` when `os.path.isdir(path)` (which follows symbolic links),
else `os.remove`. -/
def workerDeleteStep (root : TFS) (path : List String) : Except String TFS :=
  if os_path_isdir root path then shutil_rmtree root path
  else os_remove root path

/-- `spleen_ops.delete_path` (src/spleen_ops.py:24-28): `shutil.rmtree` only
when the path is a directory and not a symbolic link, else `os.remove`. -/
def delete_path (root : TFS) (path : List String) : Except String TFS :=
  if os_path_isdir root path && !os_path_islink root path then
    shutil_rmtree root path
  else os_remove root path

/-- The filesystem for C1: `/src/file.txt` holds "hello", `/src/link` is a
symbolic link to it, `/dest` is an empty directory. -/
def fsC1 : TFS :=
  TFS.dir "src"
    (TFS.fil "file.txt" "hello" (TFS.lnk "link" ["src", "file.txt"] TFS.nil))
    (TFS.dir "dest" TFS.nil TFS.nil)

/-- Claim C1 at its failing input: the engine's copy branch
(`FileOpWorker.run`, which the GUI actually uses) copies the contents of the
link's target — `/dest/link` ends up a regular file holding "hello", not a
symbolic link — while the repository's own `spleen_ops.copy_path` (the
behaviour the claim and the tests describe) recreates the link with the same
target string. -/
theorem spleen_c1_code_bug :
    (workerCopyStep fsC1 ["src", "link"] ["dest"]).map
        (fun r => lookupIn r ["dest", "link"]) = Except.ok (some (TN.fil "hello")) ∧
    (copy_path fsC1 ["src", "link"] ["dest"]).map
        (fun r => lookupIn r ["dest", "link"])
      = Except.ok (some (TN.lnk ["src", "file.txt"])) :=
  ⟨rfl, rfl⟩

/-- The filesystem for C4: `/x/d` is a directory holding `f.txt`, and
`/x/link` is a symbolic link to `/x/d`. -/
def fsC4 : TFS :=
  TFS.dir "x"
    (TFS.dir "d" (TFS.fil "f.txt" "data" TFS.nil)
      (TFS.lnk "link" ["x", "d"] TFS.nil))
    TFS.nil

/-- Claim C4 at its failing input: the engine's delete branch follows the
link with `os.path.isdir` and calls `shutil.rmtree` on it, which raises
"Cannot call rmtree on a symbolic link" — the link is not removed (the
error is recorded in the batch's error list) — while the repository's own
`spleen_ops.delete_path` removes exactly the link, leaving the directory and
its contents intact. -/
theorem spleen_c4_code_bug :
    workerDeleteStep fsC4 ["x", "link"]
      = Except.error "Cannot call rmtree on a symbolic link" ∧
    (delete_path fsC4 ["x", "link"]).map
        (fun r => (lookupIn r ["x", "link"], lookupIn r ["x", "d", "f.txt"]))
      = Except.ok (none, some (TN.fil "data")) :=
  ⟨rfl, rfl⟩
